import Mathlib

/-!
Verification of the hybrid retrieval ranking engine of the documesh
repository: the score-combination, weight-normalization, metadata-boost and
MMR-diversification logic of src/search/similarity.py (rank_results) and
src/search/ranking.py (calculate_relevance_score, rank_document_list,
diversify_results).

Modelling conventions:
- Python floats are embedded as rationals; every arithmetic operation of the
  source is exact decimal arithmetic on the values the claims mention.
- math.log10 is an external transcendental primitive; it is passed in as an
  explicit function argument so that the model stays executable.
- Python dicts used as records become structures whose optional keys become
  Option fields; the insertion-ordered dict combined_results of rank_results
  becomes an association list updated in place, appended at the end for new
  keys, exactly as Python dicts behave.
- A float division by zero raises ZeroDivisionError in Python, so the two
  scoring functions return an Except value; RankError.zeroDivisionError is the
  Python exception and RankError.invalidWeight is the distinct error name the
  design document asks for (it appears nowhere in the code).
- list.sort(key=..., reverse=True) is Python timsort: the stable descending
  sort by the key.  It is embedded as List.insertionSort with the total
  relation comparing keys descendingly, which is also stable, and any two
  stable sorts of the same list under the same total preorder coincide.
-/

/-- Errors of the scoring paths: zeroDivisionError is what Python raises on
float division by zero; invalidWeight is the clearly identified error the
design document demands for a zero weight sum (no code raises it). -/
inductive RankError where
  | zeroDivisionError
  | invalidWeight
deriving DecidableEq

/-- Value found under the created_date metadata key: either a datetime whose
age in days relative to now is days_old (the value of
(datetime.datetime.now() - created_date).days at ranking.py line 46), or a
value that fails the isinstance datetime check of ranking.py line 45. -/
inductive CreatedDate where
  | dt (days_old : Int)
  | notDatetime
deriving DecidableEq

/-- The two metadata keys the ranking engine reads (ranking.py lines 39, 52);
a missing key is none. -/
structure Metadata where
  created_date : Option CreatedDate
  view_count : Option Int
deriving DecidableEq

/-- Empty metadata: a Python metadata dict carrying neither recognized key
behaves exactly like a missing or empty one. -/
def Metadata.empty : Metadata := { created_date := none, view_count := none }

/-- calculate_relevance_score of ranking.py lines 8-58.  The log10 argument
embeds math.log10.  The weight normalization at lines 29-31 divides by
text_weight + visual_weight, which raises ZeroDivisionError when that sum is
zero; metadata is None (or an empty dict, which Python treats identically
because both recognized keys are then absent) when the argument is none. -/
def calculate_relevance_score (log10 : ℚ → ℚ)
    (text_score visual_score text_weight visual_weight : ℚ)
    (metadata : Option Metadata) : Except RankError ℚ :=
  let total_weight := text_weight + visual_weight
  if total_weight = 0 then Except.error RankError.zeroDivisionError
  else
    let tw := text_weight / total_weight
    let vw := visual_weight / total_weight
    let weighted_score := tw * text_score + vw * visual_score
    let after_recency :=
      match metadata with
      | none => weighted_score
      | some md =>
        match md.created_date with
        | some (CreatedDate.dt days_old) =>
          if days_old < 30 then
            weighted_score * (1 - ((days_old : ℚ) / 30) * 0.1)
          else weighted_score
        | some CreatedDate.notDatetime => weighted_score
        | none => weighted_score
    let after_popularity :=
      match metadata with
      | none => after_recency
      | some md =>
        match md.view_count with
        | some view_count =>
          if 0 < view_count then
            after_recency * min (1 + log10 (view_count : ℚ) * 0.05) 1.1
          else after_recency
        | none => after_recency
    Except.ok after_popularity

/-- Query context read by rank_document_list (ranking.py lines 91-100); the
two flags are doc.get defaults, so a missing key is false. -/
structure QueryContext where
  visual_emphasis : Bool
  text_emphasis : Bool
deriving DecidableEq

/-- A document record as consumed by rank_document_list: the keys it reads
with .get defaults (ranking.py lines 82-84) and the relevance_score key it
attaches (line 103), absent on input. -/
structure Doc where
  document_id : String
  text_score : ℚ
  visual_score : ℚ
  metadata : Option Metadata
  relevance_score : Option ℚ
deriving DecidableEq

/-- Weight selection of ranking.py lines 86-100: defaults 0.6/0.4, overridden
to 0.4/0.6 under visual_emphasis and then to 0.7/0.3 under text_emphasis
(the latter checked second, so it wins when both flags are set). -/
def contextWeights (query_context : Option QueryContext) : ℚ × ℚ :=
  match query_context with
  | none => (0.6, 0.4)
  | some c =>
    let w := if c.visual_emphasis then ((0.4 : ℚ), (0.6 : ℚ)) else (0.6, 0.4)
    if c.text_emphasis then (0.7, 0.3) else w

/-- One iteration of the loop of ranking.py lines 80-105: compute the
relevance score of one (already copied) document and attach it. -/
def scoreDoc (log10 : ℚ → ℚ) (query_context : Option QueryContext)
    (d : Doc) : Except RankError Doc :=
  match calculate_relevance_score log10 d.text_score d.visual_score
      (contextWeights query_context).1 (contextWeights query_context).2
      d.metadata with
  | Except.error e => Except.error e
  | Except.ok s => Except.ok { d with relevance_score := some s }

/-- The scoring loop of ranking.py lines 80-105 over the whole list; an
exception at any document propagates out of the call. -/
def scoreDocs (log10 : ℚ → ℚ) (query_context : Option QueryContext) :
    List Doc → Except RankError (List Doc)
  | [] => Except.ok []
  | d :: rest =>
    match scoreDoc log10 query_context d with
    | Except.error e => Except.error e
    | Except.ok d2 =>
      match scoreDocs log10 query_context rest with
      | Except.error e => Except.error e
      | Except.ok ds => Except.ok (d2 :: ds)

/-- rank_document_list of ranking.py lines 61-110: score every document of
the (deep-copied) list, then sort descending by relevance_score with the
stable sort of ranking.py line 108. -/
def rank_document_list (log10 : ℚ → ℚ) (documents : List Doc)
    (query_context : Option QueryContext) : Except RankError (List Doc) :=
  match scoreDocs log10 query_context documents with
  | Except.error e => Except.error e
  | Except.ok ranked_docs =>
    Except.ok (List.insertionSort
      (fun a b => b.relevance_score.getD 0 ≤ a.relevance_score.getD 0)
      ranked_docs)

/-- A text similarity match as built by search_text_similarity
(similarity.py lines 151-157); match_type is an Option because rank_results
re-checks the key's presence at line 289. -/
structure TextResult where
  document_id : String
  filename : String
  similarity_score : ℚ
  match_type : Option String
  metadata : Option Metadata
deriving DecidableEq

/-- A visual similarity match as built by search_visual_similarity
(similarity.py lines 227-234); diagram_index is an Option because
rank_results re-checks the key's presence at line 319. -/
structure VisualResult where
  document_id : String
  diagram_index : Option Int
  filename : String
  similarity_score : ℚ
  match_type : Option String
  metadata : Option Metadata
deriving DecidableEq

/-- One element of the diagrams list of a merged record
(similarity.py lines 320-323). -/
structure DiagramInfo where
  index : Int
  similarity_score : ℚ
deriving DecidableEq

/-- A merged result record of rank_results (similarity.py lines 277-324):
the dict literal of lines 278-286 plus the diagrams key, which is created
only while processing visual results (line 316), hence an Option. -/
structure MergedDoc where
  document_id : String
  filename : String
  metadata : Option Metadata
  text_score : ℚ
  visual_score : ℚ
  combined_score : ℚ
  match_types : List String
  diagrams : Option (List DiagramInfo)
deriving DecidableEq

/-- The dict literal of similarity.py lines 278-286 and 297-305 (both
creation sites build the identical record; diagrams key absent). -/
def freshEntry (document_id filename : String) (metadata : Option Metadata) :
    MergedDoc :=
  { document_id := document_id, filename := filename, metadata := metadata,
    text_score := 0, visual_score := 0, combined_score := 0,
    match_types := [], diagrams := none }

/-- Python dict update combined_results[k]: if the key is present, rewrite
its value in place keeping the dict order; otherwise append the new entry
(built from the default) at the end, as insertion-ordered dicts do. -/
def upsert (k : String) (dflt : MergedDoc) (f : MergedDoc → MergedDoc) :
    List (String × MergedDoc) → List (String × MergedDoc)
  | [] => [(k, f dflt)]
  | (k2, v) :: rest =>
    if k2 = k then (k2, f v) :: rest else (k2, v) :: upsert k dflt f rest

/-- Body of the text loop of similarity.py lines 274-290: overwrite
text_score with this match's similarity_score, then append the text tag to
match_types when the match carries a match_type key and the tag is new. -/
def applyText (r : TextResult) (d : MergedDoc) : MergedDoc :=
  let d1 := { d with text_score := r.similarity_score }
  if r.match_type.isSome ∧ "text" ∉ d1.match_types then
    { d1 with match_types := d1.match_types ++ ["text"] }
  else d1

/-- Body of the visual loop of similarity.py lines 293-324: keep the maximum
visual_score, append the visual tag when new, create the diagrams list when
absent and append this match's diagram entry when it has a diagram_index. -/
def applyVisual (r : VisualResult) (d : MergedDoc) : MergedDoc :=
  let d1 := { d with visual_score := max d.visual_score r.similarity_score }
  let d2 :=
    if r.match_type.isSome ∧ "visual" ∉ d1.match_types then
      { d1 with match_types := d1.match_types ++ ["visual"] }
    else d1
  let ds0 := match d2.diagrams with
    | none => ([] : List DiagramInfo)
    | some ds => ds
  let ds1 := match r.diagram_index with
    | some idx => ds0 ++ [{ index := idx, similarity_score := r.similarity_score }]
    | none => ds0
  { d2 with diagrams := some ds1 }

/-- The two merging loops of similarity.py lines 270-324 over the
insertion-ordered combined_results dict. -/
def mergeResults (text_results : List TextResult)
    (visual_results : List VisualResult) : List (String × MergedDoc) :=
  let m1 := text_results.foldl
    (fun acc r =>
      upsert r.document_id (freshEntry r.document_id r.filename r.metadata)
        (applyText r) acc) []
  visual_results.foldl
    (fun acc r =>
      upsert r.document_id (freshEntry r.document_id r.filename r.metadata)
        (applyVisual r) acc) m1

/-- The combined-score case split of similarity.py lines 326-340, taking the
already normalized weights: weighted average when both modalities matched,
the single modality's raw score otherwise, untouched (zero) when
match_types is empty. -/
def computeCombined (tw vw : ℚ) (d : MergedDoc) : MergedDoc :=
  if "text" ∈ d.match_types ∧ "visual" ∈ d.match_types then
    { d with combined_score := tw * d.text_score + vw * d.visual_score }
  else if "text" ∈ d.match_types then
    { d with combined_score := d.text_score }
  else if "visual" ∈ d.match_types then
    { d with combined_score := d.visual_score }
  else d

/-- rank_results of similarity.py lines 247-346: normalize the weights
(ZeroDivisionError when their sum is zero, lines 266-268), merge the two
match lists per document_id, fill in combined_score, and stably sort the
values descending by combined_score (line 344). -/
def rank_results (text_results : List TextResult)
    (visual_results : List VisualResult)
    (text_weight visual_weight : ℚ) : Except RankError (List MergedDoc) :=
  let total_weight := text_weight + visual_weight
  if total_weight = 0 then Except.error RankError.zeroDivisionError
  else
    let tw := text_weight / total_weight
    let vw := visual_weight / total_weight
    let result_list :=
      (mergeResults text_results visual_results).map
        (fun kv => computeCombined tw vw kv.2)
    Except.ok (List.insertionSort
      (fun a b => b.combined_score ≤ a.combined_score) result_list)

/-- A ranked document as read by diversify_results: the three keys the
function accesses (ranking.py lines 144, 151, 155), with the .get defaults
folded into total fields. -/
structure ScoredDoc where
  document_id : String
  relevance_score : ℚ
  match_types : List String
deriving DecidableEq

/-- Pairwise similarity of ranking.py lines 151-160: 1.0 for identical
document_ids, else the overlap of the match_types sets divided by
max(set sizes, 1).  Python set(list) holds the distinct elements, embedded
here by List.dedup. -/
def pairSimilarity (candidate selected : ScoredDoc) : ℚ :=
  if candidate.document_id = selected.document_id then 1
  else
    let candidate_types := candidate.match_types.dedup
    let selected_types := selected.match_types.dedup
    let type_overlap :=
      (candidate_types.filter (fun t => t ∈ selected_types)).length
    (type_overlap : ℚ) /
      ((max (max candidate_types.length selected_types.length) 1 : ℕ) : ℚ)

/-- Inner loop of ranking.py lines 147-162: maximum similarity of the
candidate against every already selected document, accumulated from 0.0. -/
def maxSimilarity (selected : List ScoredDoc) (candidate : ScoredDoc) : ℚ :=
  selected.foldl (fun m s => max m (pairSimilarity candidate s)) 0

/-- MMR formula of ranking.py lines 164-167 with the fixed lambda 0.7. -/
def mmrScore (selected : List ScoredDoc) (candidate : ScoredDoc) : ℚ :=
  0.7 * candidate.relevance_score - (1 - 0.7) * maxSimilarity selected candidate

/-- Linear scan of ranking.py lines 142-171 over precomputed scores: carry
the running (max_mmr_score, best_candidate_idx) pair, replacing it only on a
strict improvement; i is the index of the head of the remaining list. -/
def scanArgmax : List ℚ → Nat → ℚ × Nat → ℚ × Nat
  | [], _, best => best
  | x :: rest, i, (bv, bi) =>
    if bv < x then scanArgmax rest (i + 1) (x, i)
    else scanArgmax rest (i + 1) (bv, bi)

/-- Candidate selection of ranking.py lines 139-171: max_mmr_score starts at
minus infinity and best_candidate_idx at -1, so the first candidate always
replaces them (every rational exceeds minus infinity) and the scan then
keeps the running best; none embeds the -1 of an empty candidate list. -/
def findBest (selected : List ScoredDoc) (candidates : List ScoredDoc) :
    Option Nat :=
  match candidates with
  | [] => none
  | c :: rest =>
    some (scanArgmax (rest.map (mmrScore selected)) 1
      (mmrScore selected c, 0)).2

/-- The while loop of ranking.py lines 137-178: stop when no candidates
remain or the output has reached the input length; otherwise move the best
candidate (lines 174-176: append, then pop) and continue.  The inner none
branches mirror the best_candidate_idx >= 0 guard of line 174, unreachable
for a nonempty candidate list. -/
def diversifyLoop (total : Nat) (selected candidates : List ScoredDoc) :
    List ScoredDoc :=
  if candidates.isEmpty ∨ total ≤ selected.length then selected
  else
    match findBest selected candidates with
    | none => selected
    | some i =>
      match _h : candidates[i]? with
      | none => selected
      | some c =>
        diversifyLoop total (selected ++ [c]) (candidates.eraseIdx i)
termination_by candidates.length
decreasing_by
  have hi : i < candidates.length := by
    have := List.getElem?_eq_some_iff.mp _h
    exact this.1
  simp only [List.length_eraseIdx, if_pos hi]
  omega

/-- diversify_results of ranking.py lines 113-180: empty in, empty out; else
seed the output with the first (most relevant) document and run the MMR
loop.  The diversity_threshold parameter is accepted and never read, exactly
as in the source. -/
def diversify_results (ranked_docs : List ScoredDoc)
    (diversity_threshold : ℚ) : List ScoredDoc :=
  match ranked_docs with
  | [] => []
  | first :: rest => diversifyLoop (first :: rest).length [first] rest

/-- First-argmax predicate: index i points at a maximal score and every
earlier score is strictly smaller.  This is the selection rule the design
document states for the MMR step: highest mmr_score, first seen wins on
exact ties. -/
def isFirstArgmax (scores : List ℚ) (i : Nat) : Prop :=
  i < scores.length ∧
  (∀ j, j < scores.length → scores.getD j 0 ≤ scores.getD i 0) ∧
  (∀ j, j < i → scores.getD j 0 < scores.getD i 0)

/-!
Heap model for the frame claim.  The caller's records are cells of an
explicit heap addressed by position; copy.deepcopy (ranking.py line 77) and
the fresh dict literals of rank_results (similarity.py lines 278-286 and
297-305) are allocations of new cells past the end of the current heap, and
every write the two functions perform (relevance_score at ranking.py line
103, every combined_results mutation at similarity.py lines 288-340) targets
those freshly allocated cells only, since neither function contains an
assignment through an input reference.
-/

/-- A heap cell: one Python record of any of the shapes the ranking engine
handles, or an unused address. -/
inductive Cell where
  | docCell (d : Doc)
  | textCell (r : TextResult)
  | visualCell (r : VisualResult)
  | mergedCell (m : MergedDoc)
  | freeCell
deriving DecidableEq

/-- Placeholder for a read of a non-document cell (never hit by the claims'
runs; it stands for the dynamic type confusion Python would hit). -/
def defaultDoc : Doc :=
  { document_id := "", text_score := 0, visual_score := 0,
    metadata := none, relevance_score := none }

/-- Placeholder text record, as defaultDoc. -/
def defaultTextResult : TextResult :=
  { document_id := "", filename := "", similarity_score := 0,
    match_type := none, metadata := none }

/-- Placeholder visual record, as defaultDoc. -/
def defaultVisualResult : VisualResult :=
  { document_id := "", diagram_index := none, filename := "",
    similarity_score := 0, match_type := none, metadata := none }

/-- Dereference a document cell. -/
def readDocCell (heap : List Cell) (a : Nat) : Doc :=
  match heap.getD a Cell.freeCell with
  | Cell.docCell d => d
  | _ => defaultDoc

/-- Dereference a text match cell. -/
def readTextCell (heap : List Cell) (a : Nat) : TextResult :=
  match heap.getD a Cell.freeCell with
  | Cell.textCell r => r
  | _ => defaultTextResult

/-- Dereference a visual match cell. -/
def readVisualCell (heap : List Cell) (a : Nat) : VisualResult :=
  match heap.getD a Cell.freeCell with
  | Cell.visualCell r => r
  | _ => defaultVisualResult

/-- rank_document_list on the heap: read the argument documents, deep-copy
them into freshly allocated cells (ranking.py line 77), attach
relevance_score to the copies (line 103) and sort the copied list (line
108); the returned addresses all point into the newly allocated region. -/
def rank_document_list_heap (log10 : ℚ → ℚ) (heap : List Cell)
    (addrs : List Nat) (query_context : Option QueryContext) :
    Except RankError (List Nat × List Cell) :=
  match rank_document_list log10 (addrs.map (readDocCell heap))
      query_context with
  | Except.error e => Except.error e
  | Except.ok ranked =>
    Except.ok ((List.range ranked.length).map (fun j => heap.length + j),
      heap ++ ranked.map Cell.docCell)

/-- rank_results on the heap: read the argument match records and build the
merged records in freshly allocated cells (the dict literals of
similarity.py lines 278-286 and 297-305); every mutation of the merge loops
hits those fresh cells. -/
def rank_results_heap (heap : List Cell) (taddrs vaddrs : List Nat)
    (text_weight visual_weight : ℚ) :
    Except RankError (List Nat × List Cell) :=
  match rank_results (taddrs.map (readTextCell heap))
      (vaddrs.map (readVisualCell heap)) text_weight visual_weight with
  | Except.error e => Except.error e
  | Except.ok merged =>
    Except.ok ((List.range merged.length).map (fun j => heap.length + j),
      heap ++ merged.map Cell.mergedCell)

/-- Text match of the worked example of the design document: document A,
score 0.85. -/
def exTextA : TextResult := ⟨"A", "", 0.85, some "text", none⟩

/-- Visual match of the worked example: document A, diagram 1, score 0.65. -/
def exVisualA : VisualResult := ⟨"A", some 1, "", 0.65, some "visual", none⟩

/-- Visual match of the worked example: document B, diagram 0, score 0.9. -/
def exVisualB : VisualResult := ⟨"B", some 0, "", 0.9, some "visual", none⟩

/-- Expected merged record for A: both modalities, combined 0.77. -/
def exMergedA : MergedDoc :=
  ⟨"A", "", none, 0.85, 0.65, 0.77, ["text", "visual"], some [⟨1, 0.65⟩]⟩

/-- Expected merged record for B: visual only, text_score 0. -/
def exMergedB : MergedDoc :=
  ⟨"B", "", none, 0, 0.9, 0.9, ["visual"], some [⟨0, 0.9⟩]⟩

/-- First of two text matches for the same document (last-writer check). -/
def exTextDup1 : TextResult := ⟨"A", "", 0.3, some "text", none⟩

/-- Second text match for the same document. -/
def exTextDup2 : TextResult := ⟨"A", "", 0.9, some "text", none⟩

/-- First of two visual matches for the same document (max check). -/
def exVisualDup1 : VisualResult := ⟨"A", some 0, "", 0.2, some "visual", none⟩

/-- Second visual match for the same document. -/
def exVisualDup2 : VisualResult := ⟨"A", some 3, "", 0.8, some "visual", none⟩

/-- Example ranked documents for exercising the diversifier. -/
def exScoredA : ScoredDoc := ⟨"A", 1, ["text"]⟩

/-- Second example ranked document. -/
def exScoredB : ScoredDoc := ⟨"B", 0.95, ["text"]⟩

/-- Third example ranked document. -/
def exScoredC : ScoredDoc := ⟨"C", 0.5, ["visual"]⟩

/-- Example heap holding one caller-owned document record. -/
def exHeap : List Cell := [Cell.docCell ⟨"D", 1, 0, none, none⟩]

/-- C10: the diversity_threshold parameter of diversify_results is never
read, so for every input list and every two threshold values the outputs
coincide; the relevance-diversity balance is the hard-coded lambda 0.7. -/
theorem diversify_results_ignores_threshold :
    ∀ (docs : List ScoredDoc) (t1 t2 : ℚ),
      diversify_results docs t1 = diversify_results docs t2 :=
  fun _ _ _ => rfl

/-- C4 counterexample: at text_weight = visual_weight = 0 both scoring
operations stop with ZeroDivisionError, which is not the clearly identified
InvalidWeight error the claim announces. -/
theorem zero_weight_error_is_division_not_invalidWeight :
    rank_results [] [] 0 0 = Except.error RankError.zeroDivisionError ∧
    calculate_relevance_score (fun _ => 0) 0 0 0 0 none =
      Except.error RankError.zeroDivisionError ∧
    (Except.error RankError.zeroDivisionError :
        Except RankError (List MergedDoc)) ≠
      Except.error RankError.invalidWeight ∧
    (Except.error RankError.zeroDivisionError : Except RankError ℚ) ≠
      Except.error RankError.invalidWeight := by
  refine ⟨?_, ?_, ?_, ?_⟩
  · simp [rank_results]
  · simp [calculate_relevance_score]
  · intro h
    exact RankError.noConfusion (Except.error.inj h)
  · intro h
    exact RankError.noConfusion (Except.error.inj h)

/-- C4 amended: for every weight pair summing to zero, rank_results and
calculate_relevance_score fail fast with the uncaught ZeroDivisionError of
the weight normalization, producing no score at all; no InvalidWeight error
exists in the code. -/
theorem zero_weight_sum_raises_zeroDivisionError :
    ∀ (log10 : ℚ → ℚ) (tr : List TextResult) (vr : List VisualResult)
      (ts vs tw vw : ℚ) (md : Option Metadata), tw + vw = 0 →
      rank_results tr vr tw vw = Except.error RankError.zeroDivisionError ∧
      calculate_relevance_score log10 ts vs tw vw md =
        Except.error RankError.zeroDivisionError := by
  intro log10 tr vr ts vs tw vw md h
  constructor
  · simp [rank_results, h]
  · simp [calculate_relevance_score, h]

/-- Witness for the amended C4 theorem at the concrete weights 0 and 0. -/
theorem zero_weight_sum_raises_zeroDivisionError_witness :
    rank_results [exTextA] [] 0 0 =
      Except.error RankError.zeroDivisionError ∧
    calculate_relevance_score (fun _ => 0) 1 1 0 0 none =
      Except.error RankError.zeroDivisionError :=
  zero_weight_sum_raises_zeroDivisionError (fun _ => 0) [exTextA] [] 1 1 0 0
    none (by norm_num)

/-- With a nonzero weight sum and no metadata, calculate_relevance_score is
exactly the normalized weighted average. -/
theorem calc_score_noMeta (log10 : ℚ → ℚ) (ts vs tw vw : ℚ)
    (h : tw + vw ≠ 0) :
    calculate_relevance_score log10 ts vs tw vw none =
      Except.ok ((tw / (tw + vw)) * ts + (vw / (tw + vw)) * vs) := by
  simp [calculate_relevance_score, h]

/-- Factored normal form of calculate_relevance_score under a nonzero weight
sum: the normalized weighted average times a recency factor times a
popularity factor. -/
theorem calc_score_factored (log10 : ℚ → ℚ) (ts vs tw vw : ℚ)
    (cd : Option CreatedDate) (vopt : Option Int) (h : tw + vw ≠ 0) :
    calculate_relevance_score log10 ts vs tw vw
        (some { created_date := cd, view_count := vopt }) =
      Except.ok (((tw / (tw + vw)) * ts + (vw / (tw + vw)) * vs) *
        (match cd with
         | some (CreatedDate.dt days_old) =>
           if days_old < 30 then 1 - ((days_old : ℚ) / 30) * 0.1 else 1
         | some CreatedDate.notDatetime => 1
         | none => 1) *
        (match vopt with
         | some v => if 0 < v then min (1 + log10 (v : ℚ) * 0.05) 1.1 else 1
         | none => 1)) := by
  simp only [calculate_relevance_score, h, if_neg h]
  cases cd with
  | none =>
    cases vopt with
    | none => simp; try ring
    | some v =>
      by_cases hv : 0 < v
      · simp [hv]; try ring
      · simp [hv]; try ring
  | some c =>
    cases c with
    | notDatetime =>
      cases vopt with
      | none => simp; try ring
      | some v =>
        by_cases hv : 0 < v
        · simp [hv]; try ring
        · simp [hv]; try ring
    | dt days_old =>
      by_cases hd : days_old < 30
      · cases vopt with
        | none => simp [hd]; try ring
        | some v =>
          by_cases hv : 0 < v
          · simp [hd, hv]; try ring
          · simp [hd, hv]; try ring
      · cases vopt with
        | none => simp [hd]; try ring
        | some v =>
          by_cases hv : 0 < v
          · simp [hd, hv]; try ring
          · simp [hd, hv]; try ring

/-- C6: with a datetime created_date strictly less than 30 days old the
weighted score is multiplied by 1 - (days_old / 30) * 0.1 (a linear boost of
up to 10 percent decaying to nothing at 30 days); documents 30 or more days
old, or whose created_date is missing or not a datetime, get no recency
adjustment; the popularity factor, if any, is unaffected. -/
theorem recency_boost_linear_under_30_days :
    ∀ (log10 : ℚ → ℚ) (ts vs tw vw : ℚ) (days_old : Int)
      (vopt : Option Int), tw + vw ≠ 0 →
      (days_old < 30 →
        calculate_relevance_score log10 ts vs tw vw
            (some { created_date := some (CreatedDate.dt days_old),
                    view_count := vopt }) =
          Except.map (fun s => s * (1 - ((days_old : ℚ) / 30) * 0.1))
            (calculate_relevance_score log10 ts vs tw vw
              (some { created_date := none, view_count := vopt }))) ∧
      (30 ≤ days_old →
        calculate_relevance_score log10 ts vs tw vw
            (some { created_date := some (CreatedDate.dt days_old),
                    view_count := vopt }) =
          calculate_relevance_score log10 ts vs tw vw
            (some { created_date := none, view_count := vopt })) ∧
      (calculate_relevance_score log10 ts vs tw vw
          (some { created_date := some CreatedDate.notDatetime,
                  view_count := vopt }) =
        calculate_relevance_score log10 ts vs tw vw
          (some { created_date := none, view_count := vopt })) ∧
      (calculate_relevance_score log10 ts vs tw vw
          (some { created_date := none, view_count := none }) =
        calculate_relevance_score log10 ts vs tw vw none) := by
  intro log10 ts vs tw vw days_old vopt h
  refine ⟨?_, ?_, ?_, ?_⟩
  · intro hd
    rw [calc_score_factored log10 ts vs tw vw _ _ h,
      calc_score_factored log10 ts vs tw vw _ _ h]
    simp only [Except.map, if_pos hd, mul_one]
    exact congrArg Except.ok (by ring)
  · intro hd
    have hd' : ¬ days_old < 30 := by omega
    rw [calc_score_factored log10 ts vs tw vw _ _ h,
      calc_score_factored log10 ts vs tw vw _ _ h]
    simp only [if_neg hd']
  · rw [calc_score_factored log10 ts vs tw vw _ _ h,
      calc_score_factored log10 ts vs tw vw _ _ h]
  · rw [calc_score_factored log10 ts vs tw vw _ _ h,
      calc_score_noMeta log10 ts vs tw vw h]
    exact congrArg _ (by ring)

/-- Witness for the recency-boost theorem: a brand-new document (0 days
old) with default weights and no view count. -/
theorem recency_boost_linear_under_30_days_witness :
    calculate_relevance_score (fun _ => 0) 1 0 0.6 0.4
        (some { created_date := some (CreatedDate.dt 0),
                view_count := none }) =
      Except.map (fun s => s * (1 - (((0 : Int) : ℚ) / 30) * 0.1))
        (calculate_relevance_score (fun _ => 0) 1 0 0.6 0.4
          (some { created_date := none, view_count := none })) :=
  (recency_boost_linear_under_30_days (fun _ => 0) 1 0 0.6 0.4 0 none
    (by norm_num)).1 (by norm_num)

/-- C7: with view_count strictly positive the weighted score is multiplied
by min(1 + log10(view_count) * 0.05, 1.1); a nonpositive view_count gets no
popularity adjustment; and since log10(1000) = 3 a document with view_count
1000 receives exactly the capped multiplier 1.1. -/
theorem popularity_boost_log_capped :
    ∀ (log10 : ℚ → ℚ) (ts vs tw vw : ℚ) (vc : Int)
      (cd : Option CreatedDate), tw + vw ≠ 0 →
      (0 < vc →
        calculate_relevance_score log10 ts vs tw vw
            (some { created_date := cd, view_count := some vc }) =
          Except.map (fun s => s * min (1 + log10 (vc : ℚ) * 0.05) 1.1)
            (calculate_relevance_score log10 ts vs tw vw
              (some { created_date := cd, view_count := none }))) ∧
      (vc ≤ 0 →
        calculate_relevance_score log10 ts vs tw vw
            (some { created_date := cd, view_count := some vc }) =
          calculate_relevance_score log10 ts vs tw vw
            (some { created_date := cd, view_count := none })) ∧
      (log10 1000 = 3 →
        calculate_relevance_score log10 ts vs tw vw
            (some { created_date := cd, view_count := some 1000 }) =
          Except.map (fun s => s * 1.1)
            (calculate_relevance_score log10 ts vs tw vw
              (some { created_date := cd, view_count := none }))) := by
  intro log10 ts vs tw vw vc cd h
  refine ⟨?_, ?_, ?_⟩
  · intro hv
    rw [calc_score_factored log10 ts vs tw vw _ _ h,
      calc_score_factored log10 ts vs tw vw _ _ h]
    simp only [Except.map, if_pos hv, mul_one]
  · intro hv
    have hv' : ¬ 0 < vc := by omega
    rw [calc_score_factored log10 ts vs tw vw _ _ h,
      calc_score_factored log10 ts vs tw vw _ _ h]
    simp only [if_neg hv']
  · intro hl
    rw [calc_score_factored log10 ts vs tw vw _ _ h,
      calc_score_factored log10 ts vs tw vw _ _ h]
    have hcast : (((1000 : Int) : ℚ)) = (1000 : ℚ) := by norm_num
    have hmin : min (1 + log10 (((1000 : Int) : ℚ)) * 0.05) 1.1 = (1.1 : ℚ) := by
      rw [hcast, hl]; norm_num
    simp only [Except.map, if_pos (by norm_num : (0 : Int) < 1000), hmin,
      mul_one]

/-- Witness for the popularity-boost theorem: view_count 1000 under an
oracle with log10(1000) = 3 yields exactly the capped 1.1 multiplier. -/
theorem popularity_boost_log_capped_witness :
    calculate_relevance_score (fun _ => 3) 1 0 0.6 0.4
        (some { created_date := none, view_count := some 1000 }) =
      Except.map (fun s => s * 1.1)
        (calculate_relevance_score (fun _ => 3) 1 0 0.6 0.4
          (some { created_date := none, view_count := none })) :=
  (popularity_boost_log_capped (fun _ => 3) 1 0 0.6 0.4 1000 none
    (by norm_num)).2.2 rfl

/-- Every document of a successful scoreDocs run comes from scoring one
document of the input list. -/
theorem scoreDocs_mem (log10 : ℚ → ℚ) (qc : Option QueryContext) :
    ∀ (l : List Doc) (res : List Doc),
      scoreDocs log10 qc l = Except.ok res →
      ∀ d ∈ res, ∃ x ∈ l, scoreDoc log10 qc x = Except.ok d := by
  intro l
  induction l with
  | nil =>
    intro res h
    simp only [scoreDocs, Except.ok.injEq] at h
    subst h
    intro d hd
    cases hd
  | cons a t ih =>
    intro res h
    cases ha : scoreDoc log10 qc a with
    | error e =>
      simp only [scoreDocs, ha] at h
      exact Except.noConfusion h
    | ok d2 =>
      cases ht : scoreDocs log10 qc t with
      | error e =>
        simp only [scoreDocs, ha, ht] at h
        exact Except.noConfusion h
      | ok ds =>
        simp only [scoreDocs, ha, ht, Except.ok.injEq] at h
        subst h
        intro d hd
        rcases List.mem_cons.mp hd with hda | hdt
        · exact ⟨a, List.mem_cons_self a t, by rw [ha, hda]⟩
        · rcases ih ds ht d hdt with ⟨x, hx, hxd⟩
          exact ⟨x, List.mem_cons_of_mem a hx, hxd⟩

/-- C9: calculate_relevance_score always applies the full normalized
weighted formula, so with visual_score = 0 and no metadata the score is
(text_weight / (text_weight + visual_weight)) * text_score (0.6 * text_score
under default weights), and rank_document_list attaches exactly that value
to every text-only, metadata-free document — never short-circuiting to the
raw text_score the way the dual-list rank_results path does. -/
theorem single_list_path_full_weighted_formula :
    ∀ (log10 : ℚ → ℚ) (ts tw vw : ℚ), tw + vw ≠ 0 →
      (calculate_relevance_score log10 ts 0 tw vw none =
        Except.ok ((tw / (tw + vw)) * ts)) ∧
      (calculate_relevance_score log10 ts 0 0.6 0.4 none =
        Except.ok (0.6 * ts)) ∧
      (∀ (docs res : List Doc),
        rank_document_list log10 docs none = Except.ok res →
        ∀ d ∈ res, d.visual_score = 0 → d.metadata = none →
          d.relevance_score = some (0.6 * d.text_score)) := by
  intro log10 ts tw vw h
  have base : ∀ (t : ℚ), calculate_relevance_score log10 t 0 0.6 0.4 none =
      Except.ok (0.6 * t) := by
    intro t
    rw [calc_score_noMeta log10 t 0 0.6 0.4 (by norm_num)]
    norm_num
  refine ⟨?_, base ts, ?_⟩
  · rw [calc_score_noMeta log10 ts 0 tw vw h]
    rw [mul_zero, add_zero]
  · intro docs res hres d hd hv hm
    have hsort : ∃ ranked, scoreDocs log10 none docs = Except.ok ranked ∧
        res = List.insertionSort
          (fun a b => b.relevance_score.getD 0 ≤ a.relevance_score.getD 0)
          ranked := by
      cases hs : scoreDocs log10 none docs with
      | error e =>
        simp only [rank_document_list, hs] at hres
        exact Except.noConfusion hres
      | ok ranked =>
        simp only [rank_document_list, hs, Except.ok.injEq] at hres
        exact ⟨ranked, rfl, hres.symm⟩
    rcases hsort with ⟨ranked, hs, hrs⟩
    have hdm : d ∈ ranked := by
      rw [hrs] at hd
      exact (List.mem_insertionSort _).mp hd
    rcases scoreDocs_mem log10 none docs ranked hs d hdm with ⟨x, _hx, hxd⟩
    cases hc : calculate_relevance_score log10 x.text_score x.visual_score
        (contextWeights none).1 (contextWeights none).2 x.metadata with
    | error e =>
      simp only [scoreDoc, hc] at hxd
      exact Except.noConfusion hxd
    | ok s =>
      simp only [scoreDoc, hc, Except.ok.injEq] at hxd
      subst hxd
      simp only at hv hm ⊢
      rw [hv, hm] at hc
      have hcw : (contextWeights none).1 = (0.6 : ℚ) ∧
          (contextWeights none).2 = (0.4 : ℚ) := ⟨rfl, rfl⟩
      rw [hcw.1, hcw.2, base x.text_score] at hc
      rw [(Except.ok.inj hc : (0.6 : ℚ) * x.text_score = s)]

/-- Witness for the single-list-path theorem: the full weighted formula at
text_score 1/2 and weights 3 and 2 gives (3/5) * (1/2). -/
theorem single_list_path_full_weighted_formula_witness :
    calculate_relevance_score (fun _ => 0) (1/2) 0 3 2 none =
      Except.ok ((3 / (3 + 2)) * (1/2)) :=
  (single_list_path_full_weighted_formula (fun _ => 0) (1/2) 3 2
    (by norm_num)).1

/-- Evaluation of the worked example of the design document: text match A at
0.85 merged with visual matches A (diagram 1, 0.65) and B (diagram 0, 0.9)
gives exactly two merged records, B first (0.9), then A (0.77). -/
theorem rank_results_example_eval :
    rank_results [exTextA] [exVisualA, exVisualB] 0.6 0.4 =
      Except.ok [exMergedB, exMergedA] := by
  norm_num +decide [rank_results, mergeResults, upsert, applyText,
    applyVisual, freshEntry, computeCombined, List.insertionSort,
    List.orderedInsert, exTextA, exVisualA, exVisualB, exMergedA, exMergedB]

/-- Evaluation of two text matches for the same document: the second
(last-written) similarity_score 0.9 stands, and text appears in match_types
only once. -/
theorem rank_results_lastWriter_eval :
    rank_results [exTextDup1, exTextDup2] [] 1 1 =
      Except.ok [⟨"A", "", none, 0.9, 0, 0.9, ["text"], none⟩] := by
  norm_num +decide [rank_results, mergeResults, upsert, applyText,
    applyVisual, freshEntry, computeCombined, List.insertionSort,
    List.orderedInsert, exTextDup1, exTextDup2]

/-- Evaluation of two visual matches for the same document: visual_score is
the maximum 0.8, both diagram entries are appended in order, and visual
appears in match_types only once. -/
theorem rank_results_visualMax_eval :
    rank_results [] [exVisualDup1, exVisualDup2] 1 1 =
      Except.ok [⟨"A", "", none, 0, 0.8, 0.8, ["visual"],
        some [⟨0, 0.2⟩, ⟨3, 0.8⟩]⟩] := by
  norm_num +decide [rank_results, mergeResults, upsert, applyText,
    applyVisual, freshEntry, computeCombined, List.insertionSort,
    List.orderedInsert, exVisualDup1, exVisualDup2]

/-- computeCombined touches only combined_score. -/
theorem computeCombined_preserves (tw vw : ℚ) (d : MergedDoc) :
    (computeCombined tw vw d).text_score = d.text_score ∧
    (computeCombined tw vw d).visual_score = d.visual_score ∧
    (computeCombined tw vw d).match_types = d.match_types := by
  unfold computeCombined
  split_ifs <;> exact ⟨rfl, rfl, rfl⟩

/-- The three-way case split computeCombined performs on match_types. -/
theorem computeCombined_score (tw vw : ℚ) (d : MergedDoc) :
    (("text" ∈ d.match_types ∧ "visual" ∈ d.match_types) →
      (computeCombined tw vw d).combined_score =
        tw * d.text_score + vw * d.visual_score) ∧
    (("text" ∈ d.match_types ∧ "visual" ∉ d.match_types) →
      (computeCombined tw vw d).combined_score = d.text_score) ∧
    (("visual" ∈ d.match_types ∧ "text" ∉ d.match_types) →
      (computeCombined tw vw d).combined_score = d.visual_score) := by
  unfold computeCombined
  split_ifs with h1 h2 h3
  · exact ⟨fun _ => rfl, fun hc => absurd h1.2 hc.2, fun hc => absurd h1.1 hc.2⟩
  · exact ⟨fun hc => absurd hc h1, fun _ => rfl, fun hc => absurd h2 hc.2⟩
  · exact ⟨fun hc => absurd hc.1 h2, fun hc => absurd hc.1 h2, fun _ => rfl⟩
  · exact ⟨fun hc => absurd hc h1, fun hc => absurd hc.1 h2,
      fun hc => absurd hc.1 h3⟩

/-- A successful rank_results run means a nonzero weight sum, and its output
is the stable descending sort of the merged records with combined scores
filled in from the normalized weights. -/
theorem rank_results_ok_elim (tr : List TextResult) (vr : List VisualResult)
    (tw vw : ℚ) (res : List MergedDoc)
    (hres : rank_results tr vr tw vw = Except.ok res) :
    tw + vw ≠ 0 ∧
    res = List.insertionSort (fun a b => b.combined_score ≤ a.combined_score)
      ((mergeResults tr vr).map
        (fun kv => computeCombined (tw / (tw + vw)) (vw / (tw + vw)) kv.2)) := by
  by_cases h : tw + vw = 0
  · simp only [rank_results, h, if_pos rfl] at hres
    exact absurd hres (by simp)
  · simp only [rank_results, if_neg h, Except.ok.injEq] at hres
    exact ⟨h, hres.symm⟩

/-- C1: every merged document of a successful rank_results call obeys the
case split: combined_score is the normalized weighted average when both
modalities matched, exactly text_score when only text matched (no visual
penalty), and exactly visual_score when only visual matched. -/
theorem combined_score_case_split :
    ∀ (tr : List TextResult) (vr : List VisualResult) (tw vw : ℚ)
      (res : List MergedDoc), rank_results tr vr tw vw = Except.ok res →
      ∀ d ∈ res,
        (("text" ∈ d.match_types ∧ "visual" ∈ d.match_types) →
          d.combined_score = (tw / (tw + vw)) * d.text_score +
            (vw / (tw + vw)) * d.visual_score) ∧
        (("text" ∈ d.match_types ∧ "visual" ∉ d.match_types) →
          d.combined_score = d.text_score) ∧
        (("visual" ∈ d.match_types ∧ "text" ∉ d.match_types) →
          d.combined_score = d.visual_score) := by
  intro tr vr tw vw res hres d hd
  rcases rank_results_ok_elim tr vr tw vw res hres with ⟨_hw, hsort⟩
  rw [hsort] at hd
  have hd2 := (List.mem_insertionSort _).mp hd
  rcases List.mem_map.mp hd2 with ⟨kv, _hkv, hdf⟩
  subst hdf
  rcases computeCombined_preserves (tw / (tw + vw)) (vw / (tw + vw)) kv.2
    with ⟨hts, hvs, hmt⟩
  rcases computeCombined_score (tw / (tw + vw)) (vw / (tw + vw)) kv.2
    with ⟨hboth, htext, hvis⟩
  rw [hts, hvs, hmt]
  exact ⟨hboth, htext, hvis⟩

/-- Witness for the combined-score case split at the design document's
example: document A matched both modalities, and its combined score is both
the weighted average of its scores and the announced 0.77. -/
theorem combined_score_case_split_witness :
    exMergedA.combined_score =
      (0.6 / (0.6 + 0.4)) * exMergedA.text_score +
        (0.4 / (0.6 + 0.4)) * exMergedA.visual_score ∧
    exMergedA.combined_score = 0.77 := by
  have h := (combined_score_case_split [exTextA] [exVisualA, exVisualB]
    0.6 0.4 [exMergedB, exMergedA] rank_results_example_eval exMergedA
    (by simp)).1 ⟨by simp [exMergedA], by simp [exMergedA]⟩
  exact ⟨h, by norm_num [exMergedA]⟩

/-- applyText preserves duplicate-freedom of match_types: it appends the
text tag only under the explicit not-already-present guard. -/
theorem applyText_nodup (r : TextResult) (d : MergedDoc)
    (h : d.match_types.Nodup) : (applyText r d).match_types.Nodup := by
  simp only [applyText]
  split_ifs with hc
  · simpa [List.nodup_append] using ⟨h, hc.2⟩
  · exact h

/-- applyVisual preserves duplicate-freedom of match_types, by the same
not-already-present guard. -/
theorem applyVisual_nodup (r : VisualResult) (d : MergedDoc)
    (h : d.match_types.Nodup) : (applyVisual r d).match_types.Nodup := by
  simp only [applyVisual]
  split_ifs with hc
  · cases hdi : r.diagram_index <;>
      simpa [List.nodup_append] using ⟨h, hc.2⟩
  · cases hdi : r.diagram_index <;> simpa using h

/-- upsert preserves a pointwise property of the stored records when the
update function preserves it and the freshly created record satisfies it. -/
theorem upsert_forall (P : MergedDoc → Prop) (k : String) (dflt : MergedDoc)
    (f : MergedDoc → MergedDoc) (hfd : P (f dflt))
    (hf : ∀ d, P d → P (f d)) :
    ∀ (acc : List (String × MergedDoc)), (∀ kv ∈ acc, P kv.2) →
      ∀ kv ∈ upsert k dflt f acc, P kv.2 := by
  intro acc
  induction acc with
  | nil =>
    intro _ kv hkv
    simp only [upsert, List.mem_singleton] at hkv
    subst hkv
    exact hfd
  | cons hd tl ih =>
    intro hacc kv hkv
    rcases hd with ⟨k2, v⟩
    by_cases hk : k2 = k
    · simp only [upsert, if_pos hk] at hkv
      rcases List.mem_cons.mp hkv with h1 | h2
      · subst h1
        exact hf v (hacc (k2, v) (List.mem_cons_self _ _))
      · exact hacc kv (List.mem_cons_of_mem _ h2)
    · simp only [upsert, if_neg hk] at hkv
      rcases List.mem_cons.mp hkv with h1 | h2
      · subst h1
        exact hacc (k2, v) (List.mem_cons_self _ _)
      · exact ih (fun kv2 hkv2 => hacc kv2 (List.mem_cons_of_mem _ hkv2))
          kv h2

/-- A fold of upserts preserves a pointwise property of the stored
records. -/
theorem foldl_upsert_forall {α : Type} (P : MergedDoc → Prop)
    (key : α → String) (dflt : α → MergedDoc)
    (f : α → MergedDoc → MergedDoc)
    (hfd : ∀ a, P (f a (dflt a))) (hf : ∀ a d, P d → P (f a d)) :
    ∀ (L : List α) (acc : List (String × MergedDoc)),
      (∀ kv ∈ acc, P kv.2) →
      ∀ kv ∈ L.foldl (fun acc a => upsert (key a) (dflt a) (f a) acc) acc,
        P kv.2 := by
  intro L
  induction L with
  | nil => intro acc hacc kv hkv; exact hacc kv hkv
  | cons a t ih =>
    intro acc hacc kv hkv
    exact ih (upsert (key a) (dflt a) (f a) acc)
      (upsert_forall P (key a) (dflt a) (f a) (hfd a) (hf a) acc hacc)
      kv hkv

/-- Every record of the merge map has duplicate-free match_types. -/
theorem mergeResults_nodup (tr : List TextResult) (vr : List VisualResult) :
    ∀ kv ∈ mergeResults tr vr, kv.2.match_types.Nodup := by
  unfold mergeResults
  apply foldl_upsert_forall (fun d => d.match_types.Nodup)
  · intro a
    exact applyVisual_nodup a _ (by simp [freshEntry])
  · intro a d hd
    exact applyVisual_nodup a d hd
  · apply foldl_upsert_forall (fun d => d.match_types.Nodup)
    · intro a
      exact applyText_nodup a _ (by simp [freshEntry])
    · intro a d hd
      exact applyText_nodup a d hd
    · intro kv hkv
      cases hkv

/-- C5: the merge of rank_results follows the stated rules.  The worked
example (text A 0.85; visual A diagram 1 score 0.65, visual B diagram 0
score 0.9) yields exactly two merged documents — A with
match_types text and visual, B with match_types visual only and
text_score 0; a duplicated text match keeps the last-written score; a
duplicated visual match keeps the maximum score and appends every diagram
entry in order; and in every run each modality tag appears in match_types
at most once. -/
theorem merge_rules :
    rank_results [exTextA] [exVisualA, exVisualB] 0.6 0.4 =
      Except.ok [exMergedB, exMergedA] ∧
    exMergedA.match_types = ["text", "visual"] ∧
    exMergedB.match_types = ["visual"] ∧
    exMergedB.text_score = 0 ∧
    rank_results [exTextDup1, exTextDup2] [] 1 1 =
      Except.ok [⟨"A", "", none, 0.9, 0, 0.9, ["text"], none⟩] ∧
    rank_results [] [exVisualDup1, exVisualDup2] 1 1 =
      Except.ok [⟨"A", "", none, 0, 0.8, 0.8, ["visual"],
        some [⟨0, 0.2⟩, ⟨3, 0.8⟩]⟩] ∧
    (∀ (tr : List TextResult) (vr : List VisualResult) (tw vw : ℚ)
      (res : List MergedDoc), rank_results tr vr tw vw = Except.ok res →
      ∀ d ∈ res, d.match_types.Nodup) := by
  refine ⟨rank_results_example_eval, rfl, rfl, rfl,
    rank_results_lastWriter_eval, rank_results_visualMax_eval, ?_⟩
  intro tr vr tw vw res hres d hd
  rcases rank_results_ok_elim tr vr tw vw res hres with ⟨_hw, hsort⟩
  rw [hsort] at hd
  have hd2 := (List.mem_insertionSort _).mp hd
  rcases List.mem_map.mp hd2 with ⟨kv, hkv, hdf⟩
  subst hdf
  rw [(computeCombined_preserves _ _ kv.2).2.2]
  exact mergeResults_nodup tr vr kv hkv

/-- Witness for the merge rules: record A of the worked example carries each
modality tag exactly once. -/
theorem merge_rules_witness : exMergedA.match_types.Nodup :=
  merge_rules.2.2.2.2.2.2 [exTextA] [exVisualA, exVisualB] 0.6 0.4
    [exMergedB, exMergedA] rank_results_example_eval exMergedA (by simp)

/-- Evaluation of the heap-level ranker on a one-document heap: the ranked
copy is allocated at the fresh address 1 and the caller's cell at address 0
is untouched. -/
theorem rank_document_list_heap_eval :
    rank_document_list_heap (fun _ => 0) exHeap [0] none =
      Except.ok ([1], exHeap ++ [Cell.docCell ⟨"D", 1, 0, none, some 0.6⟩]) := by
  norm_num +decide [rank_document_list_heap, rank_document_list, scoreDocs,
    scoreDoc, contextWeights, calculate_relevance_score, readDocCell, exHeap,
    List.insertionSort, List.orderedInsert, List.range, List.range.loop]

/-- C8: neither ranking entry point mutates the caller's records.  In the
heap model, rank_document_list works on deep copies allocated past the end
of the heap and rank_results builds its merged records in fresh cells, so
after a successful call every pre-existing heap address holds exactly the
cell it held before, and every returned address lies in the fresh region. -/
theorem ranking_never_mutates_inputs :
    (∀ (log10 : ℚ → ℚ) (heap : List Cell) (addrs : List Nat)
      (qc : Option QueryContext) (out : List Nat × List Cell),
      rank_document_list_heap log10 heap addrs qc = Except.ok out →
      (∀ a, a < heap.length →
        out.2.getD a Cell.freeCell = heap.getD a Cell.freeCell) ∧
      (∀ a ∈ out.1, heap.length ≤ a)) ∧
    (∀ (heap : List Cell) (taddrs vaddrs : List Nat) (tw vw : ℚ)
      (out : List Nat × List Cell),
      rank_results_heap heap taddrs vaddrs tw vw = Except.ok out →
      (∀ a, a < heap.length →
        out.2.getD a Cell.freeCell = heap.getD a Cell.freeCell) ∧
      (∀ a ∈ out.1, heap.length ≤ a)) := by
  constructor
  · intro log10 heap addrs qc out hout
    cases hr : rank_document_list log10 (addrs.map (readDocCell heap)) qc with
    | error e =>
      simp only [rank_document_list_heap, hr] at hout
      exact Except.noConfusion hout
    | ok ranked =>
      simp only [rank_document_list_heap, hr, Except.ok.injEq] at hout
      subst hout
      constructor
      · intro a ha
        exact List.getD_append _ _ _ a ha
      · intro a hmem
        rcases List.mem_map.mp hmem with ⟨j, _hj, hja⟩
        subst hja
        exact Nat.le_add_right _ _
  · intro heap taddrs vaddrs tw vw out hout
    cases hr : rank_results (taddrs.map (readTextCell heap))
        (vaddrs.map (readVisualCell heap)) tw vw with
    | error e =>
      simp only [rank_results_heap, hr] at hout
      exact Except.noConfusion hout
    | ok merged =>
      simp only [rank_results_heap, hr, Except.ok.injEq] at hout
      subst hout
      constructor
      · intro a ha
        exact List.getD_append _ _ _ a ha
      · intro a hmem
        rcases List.mem_map.mp hmem with ⟨j, _hj, hja⟩
        subst hja
        exact Nat.le_add_right _ _

/-- Witness for the frame theorem: on the one-document heap the caller's
cell at address 0 is unchanged by the call and the returned address 1 is
fresh. -/
theorem ranking_never_mutates_inputs_witness :
    (exHeap ++ [Cell.docCell ⟨"D", 1, 0, none, some 0.6⟩]).getD 0
        Cell.freeCell = exHeap.getD 0 Cell.freeCell ∧
    exHeap.length ≤ 1 := by
  have h := ranking_never_mutates_inputs.1 (fun _ => 0) exHeap [0] none
    ([1], exHeap ++ [Cell.docCell ⟨"D", 1, 0, none, some 0.6⟩])
    rank_document_list_heap_eval
  exact ⟨h.1 0 (by simp [exHeap]), h.2 1 (by simp)⟩

/-- The running best index of the scan either stays at its initial value or
lands inside the scanned segment. -/
theorem scanArgmax_bound :
    ∀ (l : List ℚ) (j : Nat) (bv : ℚ) (bj : Nat),
      (scanArgmax l j (bv, bj)).2 = bj ∨
      (j ≤ (scanArgmax l j (bv, bj)).2 ∧
        (scanArgmax l j (bv, bj)).2 < j + l.length) := by
  intro l
  induction l with
  | nil => intro j bv bj; left; rfl
  | cons x rest ih =>
    intro j bv bj
    by_cases hx : bv < x
    · simp only [scanArgmax, if_pos hx, List.length_cons]
      rcases ih (j + 1) x j with h | h
      · right
        rw [h]
        omega
      · right
        constructor <;> omega
    · simp only [scanArgmax, if_neg hx, List.length_cons]
      rcases ih (j + 1) bv bj with h | h
      · left
        exact h
      · right
        constructor <;> omega

/-- A selected candidate index is always in bounds. -/
theorem findBest_lt (sel cands : List ScoredDoc) (i : Nat)
    (h : findBest sel cands = some i) : i < cands.length := by
  cases cands with
  | nil => simp [findBest] at h
  | cons c rest =>
    simp only [findBest, Option.some.injEq] at h
    rcases scanArgmax_bound (rest.map (mmrScore sel)) 1 (mmrScore sel c) 0
      with hb | hb
    · rw [← h, hb]
      simp
    · rw [List.length_map] at hb
      rw [← h]
      simp only [List.length_cons]
      omega

/-- findBest yields a candidate whenever candidates remain. -/
theorem findBest_isSome (sel cands : List ScoredDoc) (h : cands ≠ []) :
    (findBest sel cands).isSome := by
  cases cands with
  | nil => exact absurd rfl h
  | cons c rest => simp [findBest]

/-- Moving the element at a valid index to the front is a permutation. -/
theorem cons_eraseIdx_perm {α : Type} :
    ∀ (l : List α) (i : Nat) (c : α), l[i]? = some c →
      (c :: l.eraseIdx i).Perm l := by
  intro l
  induction l with
  | nil => intro i c h; simp at h
  | cons a t ih =>
    intro i c h
    cases i with
    | zero =>
      simp only [List.getElem?_cons_zero, Option.some.injEq] at h
      subst h
      simp [List.eraseIdx]
    | succ j =>
      simp only [List.getElem?_cons_succ] at h
      have hp := ih j c h
      simp only [List.eraseIdx]
      exact (List.Perm.swap a c _).trans (hp.cons a)

/-- The MMR loop permutes its selected-plus-candidates pool: every pass
moves exactly one candidate to the end of the output. -/
theorem diversifyLoop_perm :
    ∀ (n : Nat) (cands sel : List ScoredDoc) (total : Nat),
      cands.length = n → total = sel.length + cands.length →
      (diversifyLoop total sel cands).Perm (sel ++ cands) := by
  intro n
  induction n with
  | zero =>
    intro cands sel total hn _ht
    have hc : cands = [] := List.length_eq_zero.mp hn
    subst hc
    rw [diversifyLoop]
    simp
  | succ m ih =>
    intro cands sel total hn ht
    have hne : cands ≠ [] := by
      intro h
      subst h
      simp at hn
    have hguard : ¬ (cands.isEmpty ∨ total ≤ sel.length) := by
      rw [List.isEmpty_iff]
      push_neg
      refine ⟨hne, ?_⟩
      omega
    rw [diversifyLoop, if_neg hguard]
    split
    · rename_i heq
      exact absurd (findBest_isSome sel cands hne) (by simp [heq])
    · rename_i i heq
      split
      · rename_i hnone
        have hi := findBest_lt sel cands i heq
        rw [List.getElem?_eq_none_iff] at hnone
        omega
      · rename_i c hsome
        have hi := findBest_lt sel cands i heq
        have hlen : (cands.eraseIdx i).length = m := by
          rw [List.length_eraseIdx, if_pos hi]
          omega
        have hrec := ih (cands.eraseIdx i) (sel ++ [c]) total hlen
          (by simp [List.length_append, hlen]; omega)
        refine hrec.trans ?_
        rw [List.append_assoc, List.singleton_append]
        exact List.Perm.append_left sel (cons_eraseIdx_perm cands i c hsome)

/-- C2: diversify_results returns a permutation of its input — same length,
same multiset of documents and of document_ids, never dropping or
duplicating an item; an empty input gives an empty output and a singleton
input is returned unchanged. -/
theorem diversify_results_is_permutation :
    (∀ (docs : List ScoredDoc) (t : ℚ),
      (diversify_results docs t).Perm docs) ∧
    (∀ (docs : List ScoredDoc) (t : ℚ),
      (diversify_results docs t).length = docs.length) ∧
    (∀ (docs : List ScoredDoc) (t : ℚ),
      ((diversify_results docs t).map (fun d => d.document_id)).Perm
        (docs.map (fun d => d.document_id))) ∧
    (∀ (t : ℚ), diversify_results [] t = []) ∧
    (∀ (d : ScoredDoc) (t : ℚ), diversify_results [d] t = [d]) := by
  have hperm : ∀ (docs : List ScoredDoc) (t : ℚ),
      (diversify_results docs t).Perm docs := by
    intro docs t
    cases docs with
    | nil => simp [diversify_results]
    | cons first rest =>
      have h := diversifyLoop_perm rest.length rest [first]
        ((first :: rest).length) rfl (by simp; omega)
      simpa [diversify_results] using h
  refine ⟨hperm, fun docs t => (hperm docs t).length_eq,
    fun docs t => (hperm docs t).map _, fun _ => rfl, ?_⟩
  intro d t
  show diversifyLoop 1 [d] [] = [d]
  rw [diversifyLoop]
  simp

/-- getD at the position just past a list reads the appended element. -/
theorem getD_concat_length (l : List ℚ) (x d : ℚ) :
    (l ++ [x]).getD l.length d = x := by
  induction l with
  | nil => rfl
  | cons a t ih => simpa [List.getD] using ih

/-- The scan of scanArgmax maintains the first-argmax invariant: starting
from the first argmax of the already scanned segment (whose value is the
running best), it ends at the first argmax of the whole list.  This is the
first-seen-wins-on-ties property: the running best is replaced only on a
strict improvement. -/
theorem scanArgmax_isFirstArgmax :
    ∀ (l done : List ℚ) (bv : ℚ) (bi : Nat),
      isFirstArgmax done bi → done.getD bi 0 = bv →
      isFirstArgmax (done ++ l) (scanArgmax l done.length (bv, bi)).2 ∧
      (done ++ l).getD (scanArgmax l done.length (bv, bi)).2 0 =
        (scanArgmax l done.length (bv, bi)).1 := by
  intro l
  induction l with
  | nil =>
    intro done bv bi hfa hbv
    simp only [scanArgmax, List.append_nil]
    exact ⟨hfa, hbv⟩
  | cons x rest ih =>
    intro done bv bi hfa hbv
    rcases hfa with ⟨hbi, hmax, hfirst⟩
    by_cases hx : bv < x
    · have hfa2 : isFirstArgmax (done ++ [x]) done.length := by
        refine ⟨by simp, ?_, ?_⟩
        · intro j hj
          rw [getD_concat_length]
          by_cases hjd : j < done.length
          · rw [List.getD_append done [x] 0 j hjd]
            exact le_of_lt (lt_of_le_of_lt (by rw [← hbv]; exact hmax j hjd) hx)
          · have hje : j = done.length := by
              simp only [List.length_append, List.length_singleton] at hj
              omega
            subst hje
            rw [getD_concat_length]
        · intro j hj
          rw [getD_concat_length, List.getD_append done [x] 0 j hj]
          exact lt_of_le_of_lt (by rw [← hbv]; exact hmax j hj) hx
      have hbv2 : (done ++ [x]).getD done.length 0 = x := getD_concat_length _ _ _
      have hrec := ih (done ++ [x]) x done.length hfa2 hbv2
      simp only [List.length_append, List.length_singleton, List.append_assoc,
        List.singleton_append] at hrec
      simp only [scanArgmax, if_pos hx]
      exact hrec
    · have hfa2 : isFirstArgmax (done ++ [x]) bi := by
        refine ⟨by simp only [List.length_append, List.length_singleton]; omega,
          ?_, ?_⟩
        · intro j hj
          rw [List.getD_append done [x] 0 bi hbi]
          by_cases hjd : j < done.length
          · rw [List.getD_append done [x] 0 j hjd]
            exact hmax j hjd
          · have hje : j = done.length := by
              simp only [List.length_append, List.length_singleton] at hj
              omega
            subst hje
            rw [getD_concat_length, hbv]
            exact le_of_not_lt hx
        · intro j hj
          rw [List.getD_append done [x] 0 bi hbi,
            List.getD_append done [x] 0 j (lt_trans hj hbi)]
          exact hfirst j hj
      have hbv2 : (done ++ [x]).getD bi 0 = bv := by
        rw [List.getD_append done [x] 0 bi hbi]
        exact hbv
      have hrec := ih (done ++ [x]) bv bi hfa2 hbv2
      simp only [List.length_append, List.length_singleton, List.append_assoc,
        List.singleton_append] at hrec
      simp only [scanArgmax, if_neg hx]
      exact hrec

/-- For a nonempty candidate list, findBest returns the first index
attaining the maximum MMR score. -/
theorem findBest_first_argmax (sel cands : List ScoredDoc)
    (hne : cands ≠ []) :
    isFirstArgmax (cands.map (mmrScore sel)) ((findBest sel cands).getD 0) := by
  cases cands with
  | nil => exact absurd rfl hne
  | cons c rest =>
    have h0 : isFirstArgmax [mmrScore sel c] 0 := by
      refine ⟨by simp, ?_, ?_⟩
      · intro j hj
        have hj0 : j = 0 := by simpa using hj
        subst hj0
        exact le_refl _
      · intro j hj
        omega
    have hb : ([mmrScore sel c] : List ℚ).getD 0 0 = mmrScore sel c := rfl
    have h := (scanArgmax_isFirstArgmax (rest.map (mmrScore sel))
      [mmrScore sel c] (mmrScore sel c) 0 h0 hb).1
    simpa [findBest] using h

/-- The output of the MMR loop begins with the seeded documents. -/
theorem diversifyLoop_head :
    ∀ (n : Nat) (cands sel : List ScoredDoc) (total : Nat),
      cands.length = n → sel ≠ [] →
      (diversifyLoop total sel cands).head? = sel.head? := by
  intro n
  induction n with
  | zero =>
    intro cands sel total hn _hsel
    have hc : cands = [] := List.length_eq_zero.mp hn
    subst hc
    rw [diversifyLoop]
    simp
  | succ m ih =>
    intro cands sel total hn hsel
    rw [diversifyLoop]
    by_cases hg : cands.isEmpty ∨ total ≤ sel.length
    · rw [if_pos hg]
    · rw [if_neg hg]
      split
      · rfl
      · rename_i i heq
        split
        · rfl
        · rename_i c _hsome
          have hi := findBest_lt sel cands i heq
          have hlen : (cands.eraseIdx i).length = m := by
            rw [List.length_eraseIdx, if_pos hi]
            omega
          have hrec := ih (cands.eraseIdx i) (sel ++ [c]) total hlen (by simp)
          rw [hrec]
          cases sel with
          | nil => exact absurd rfl hsel
          | cons a t => simp

/-- One unfolding of the MMR loop: in a running state, the candidate at the
selected index is appended to the output and removed from the pool. -/
theorem diversifyLoop_step (total : Nat) (sel cands : List ScoredDoc)
    (i : Nat) (c : ScoredDoc) (hg : ¬ (cands.isEmpty ∨ total ≤ sel.length))
    (hf : findBest sel cands = some i) (hget : cands[i]? = some c) :
    diversifyLoop total sel cands =
      diversifyLoop total (sel ++ [c]) (cands.eraseIdx i) := by
  conv_lhs => rw [diversifyLoop]
  rw [if_neg hg]
  split
  · rename_i heq
    rw [hf] at heq
    cases heq
  · rename_i i2 heq
    have hi2 : i2 = i := by
      rw [hf] at heq
      exact (Option.some.inj heq).symm
    subst hi2
    split
    · rename_i hnone
      rw [hget] at hnone
      cases hnone
    · rename_i c2 hsome
      have hc2 : c2 = c := by
        rw [hget] at hsome
        exact (Option.some.inj hsome).symm
      subst hc2
      rfl

/-- C3: diversify_results is the stated greedy MMR step.  The score of a
candidate is 0.7 times its relevance_score minus 0.3 times its maximum
similarity to the already selected documents, where pairwise similarity is
1 for an identical document_id and otherwise the match_types overlap
divided by max of the two set sizes and 1; the output is seeded with the
input head; whenever candidates remain one is selected, namely the first
index attaining the maximum MMR score (the linear scan replaces its best
only on strict improvement, so the earliest candidate wins exact ties); and
the loop moves exactly that candidate to the end of the output. -/
theorem mmr_greedy_step_spec :
    (∀ (sel : List ScoredDoc) (c : ScoredDoc),
      mmrScore sel c = 0.7 * c.relevance_score - 0.3 * maxSimilarity sel c) ∧
    (∀ (c s : ScoredDoc),
      (c.document_id = s.document_id → pairSimilarity c s = 1) ∧
      (c.document_id ≠ s.document_id → pairSimilarity c s =
        (((c.match_types.dedup.filter
            (fun t => t ∈ s.match_types.dedup)).length : ℚ) /
          ((max (max c.match_types.dedup.length s.match_types.dedup.length)
            1 : ℕ) : ℚ)))) ∧
    (∀ (docs : List ScoredDoc) (t : ℚ), docs ≠ [] →
      (diversify_results docs t).head? = docs.head?) ∧
    (∀ (sel cands : List ScoredDoc), cands ≠ [] →
      (findBest sel cands).isSome) ∧
    (∀ (sel cands : List ScoredDoc), cands ≠ [] →
      isFirstArgmax (cands.map (mmrScore sel))
        ((findBest sel cands).getD 0)) ∧
    (∀ (total : Nat) (sel cands : List ScoredDoc) (i : Nat) (c : ScoredDoc),
      ¬ (cands.isEmpty ∨ total ≤ sel.length) →
      findBest sel cands = some i → cands[i]? = some c →
      diversifyLoop total sel cands =
        diversifyLoop total (sel ++ [c]) (cands.eraseIdx i)) := by
  refine ⟨?_, ?_, ?_, findBest_isSome, findBest_first_argmax,
    diversifyLoop_step⟩
  · intro sel c
    unfold mmrScore
    norm_num
  · intro c s
    constructor
    · intro h
      simp [pairSimilarity, h]
    · intro h
      simp [pairSimilarity, h]
  · intro docs t hne
    cases docs with
    | nil => exact absurd rfl hne
    | cons first rest =>
      show (diversifyLoop (first :: rest).length [first] rest).head? = _
      rw [diversifyLoop_head rest.length rest [first] (first :: rest).length
        rfl (by simp)]
      rfl

/-- Witness for the MMR step theorem: on one selected document and two
candidates, findBest picks a first argmax of the two MMR scores. -/
theorem mmr_greedy_step_spec_witness :
    isFirstArgmax ([exScoredB, exScoredC].map (mmrScore [exScoredA]))
      ((findBest [exScoredA] [exScoredB, exScoredC]).getD 0) :=
  mmr_greedy_step_spec.2.2.2.2.1 [exScoredA] [exScoredB, exScoredC]
    (by simp)
